import Mathlib

/-!
Verification of the `block_access` PostgreSQL client-authentication hook
(`block_access.c`).  The module parses two configuration strings — a list of
weekday/time-window groups and a parallel list of role-exclusion groups,
both `;`-separated — and, on each authentication attempt, allows or denies
the attempt depending on whether the current local time falls inside the
window of the first rule listing the current weekday.

Strings are modelled as `List Char`.  C functions that can receive or
return `NULL` are modelled with `Option`; a computation whose C original
runs into undefined behaviour (dereferencing `NULL` or an uninitialized
pointer, reading uninitialized memory) is modelled as `none` at the
outermost level.  The PostgreSQL `elog(ERROR, ...)` calls abort the
evaluation; they are modelled with `Except`, one constructor per error
site following the error taxonomy of the design document.
-/

namespace BlockAccess

deriving instance DecidableEq for Except

/-- Outcome of one authentication check: the hook either lets the attempt
through (the function returns normally, "access allowed") or raises
`elog(ERROR, "access denied ...")`. -/
inductive Verdict where
  | Allow
  | Deny
  deriving DecidableEq

/-- The configuration-error taxonomy.  Each constructor corresponds to one
`elog(ERROR, ...)` site of the parsing code in `block_access.c`. -/
inductive ParseError where
  | GroupCountMismatch
  | MalformedInterval
  | UnknownWeekday
  | MalformedTime
  | HourOutOfRange
  | MinuteOutOfRange
  deriving DecidableEq

/-- C `isspace` in the default locale: space, form feed, line feed,
carriage return, horizontal tab, vertical tab. -/
def isSpaceC (c : Char) : Bool :=
  c == ' ' || c == '\t' || c == '\n' || c == '\r' || c == '\x0b' || c == '\x0c'

/-- `trim` from `block_access.c`: strips leading and trailing whitespace;
a string consisting only of whitespace yields `NULL`, modelled `none`.
(The C function takes `char *`; the `NULL`-argument case is handled at the
call sites via `Option.bind`-style matching.) -/
def trim (s : List Char) : Option (List Char) :=
  let t := ((s.dropWhile isSpaceC).reverse.dropWhile isSpaceC).reverse
  if t.isEmpty then none else some t

/-- Reference splitter: all `d`-separated groups of `s`, in order, keeping
empty groups; a string with `n` occurrences of `d` has exactly `n + 1`
groups.  This is the "all tokens" split the design document describes. -/
def splitOnAll (d : Char) : List Char → List (List Char)
  | [] => [[]]
  | c :: rest =>
    if c == d then
      [] :: splitOnAll d rest
    else
      match splitOnAll d rest with
      | [] => [[c]]
      | g :: gs => (c :: g) :: gs

/-- The token sequence produced by a complete session of C `strtok` calls
on one string with a single-character delimiter set: `strtok` skips runs
of delimiters, so the session yields exactly the maximal nonempty runs of
non-delimiter characters — every group except the empty ones. -/
def strtokList (d : Char) (s : List Char) : List (List Char) :=
  (splitOnAll d s).filter (fun t => !t.isEmpty)

/-- The token sequence produced by a complete session of `strtok_all`
calls (`block_access.c`): each call emits the (possibly empty) prefix up
to the first delimiter and advances past it; when no delimiter remains, a
nonempty rest is emitted and an empty rest is not.  Hence every group is
returned except a trailing empty one. -/
def strtok_all (d : Char) : List Char → List (List Char)
  | [] => []
  | c :: rest =>
    if c == d then
      [] :: strtok_all d rest
    else
      match strtok_all d rest with
      | [] => [[c]]
      | t :: ts => (c :: t) :: ts

/-- Drop a trailing empty group, keeping everything else: the relation
between the "all groups" split and what `strtok_all` actually returns. -/
def dropTrailingEmpty (l : List (List Char)) : List (List Char) :=
  if l.getLast? = some [] then l.dropLast else l

/-- Value of a decimal digit string, most significant digit first. -/
def digitsVal (l : List Char) : Int :=
  l.foldl (fun a c => a * 10 + ((c.toNat : Int) - ('0'.toNat : Int))) 0

/-- C `atoi`: skip leading whitespace, accept one optional sign, then read
the longest leading run of decimal digits (value `0` if there is none);
anything after the digits is ignored. -/
def atoi (s : List Char) : Int :=
  match s.dropWhile isSpaceC with
  | [] => 0
  | c :: rest =>
    if c == '-' then - digitsVal (rest.takeWhile Char.isDigit)
    else if c == '+' then digitsVal (rest.takeWhile Char.isDigit)
    else digitsVal ((c :: rest).takeWhile Char.isDigit)

/-- `BATime` from `block_access.c` (fields are C `int`s). -/
structure BATime where
  hour : Int
  minute : Int
  deriving DecidableEq

/-- The interval part of `BAIntervalRole`: weekday list (0 = sun .. 6 =
sat), start time and end time, as filled in by `parse_interval`. -/
structure BAInterval where
  wday : List Nat
  start_time : BATime
  end_time : BATime
  deriving DecidableEq

/-- `BAIntervalRole` from `block_access.c`.  A `roles` entry is `none`
when the C slot holds `NULL` (a whitespace-only token trimmed away) or was
left uninitialized (a position `strtok` collapsed); comparing against such
a slot is undefined behaviour. -/
structure BAIntervalRole where
  wday : List Nat
  start_time : BATime
  end_time : BATime
  roles : List (Option (List Char))
  deriving DecidableEq

/-- Parse one (already trimmed) start or end time token, `block_access.c`
lines 229-276: two sequential `strtok(item, ":")` calls feeding `atoi`,
with a range check after each.  A missing token is an `elog(ERROR,
"parse ... failed")`, i.e. `MalformedTime`. -/
def parseTime (s : List Char) : Except ParseError BATime :=
  match strtokList ':' s with
  | [] => .error .MalformedTime
  | hTok :: rest =>
    let hv := atoi hTok
    if hv < 0 ∨ 23 < hv then .error .HourOutOfRange
    else
      match rest with
      | [] => .error .MalformedTime
      | mTok :: _ =>
        let mv := atoi mTok
        if mv < 0 ∨ 59 < mv then .error .MinuteOutOfRange
        else .ok ⟨hv, mv⟩

/-- Map one trimmed weekday token to its number, exactly the `strcmp`
chain of `parse_interval`. -/
def weekdayOf (t : List Char) : Option Nat :=
  if t = "sun".toList then some 0
  else if t = "mon".toList then some 1
  else if t = "tue".toList then some 2
  else if t = "wed".toList then some 3
  else if t = "thu".toList then some 4
  else if t = "fri".toList then some 5
  else if t = "sat".toList then some 6
  else none

/-- Process the `strtok(item, ",")` weekday tokens in order: each is
trimmed (a whitespace-only token makes `trim` return `NULL` and the
subsequent `strcmp` undefined, modelled `none`) and matched against the
seven names (`elog(ERROR, "parse week days failed ...")` otherwise). -/
def parseWeekdayToks : List (List Char) → Option (Except ParseError (List Nat))
  | [] => some (.ok [])
  | t :: rest =>
    match trim t with
    | none => none
    | some tw =>
      match weekdayOf tw with
      | none => some (.error .UnknownWeekday)
      | some d =>
        match parseWeekdayToks rest with
        | none => none
        | some (.error e) => some (.error e)
        | some (.ok ds) => some (.ok (d :: ds))

/-- The weekday-list phase of `parse_interval`: the `wday` array is sized
by the comma count, then filled from the `strtok(item, ",")` tokens.  If
`strtok` yields fewer tokens than comma-separated positions (consecutive
or trailing commas), slots of the array stay uninitialized and the later
evaluation reads indeterminate memory — modelled `none`. -/
def parseWeekdays (w : List Char) : Option (Except ParseError (List Nat)) :=
  let toks := strtokList ',' w
  match parseWeekdayToks toks with
  | none => none
  | some (.error e) => some (.error e)
  | some (.ok ds) =>
    if toks.length = w.count ',' + 1 then some (.ok ds) else none

/-- `parse_interval` from `block_access.c`: three sequential
`strtok(item, "-")` calls produce the weekday-list, start-time and
end-time parts (any further parts are never requested); a missing part is
an `elog(ERROR, ...)`, i.e. `MalformedInterval`.  Each part is trimmed;
a part trimmed to `NULL` is later passed to `pstrdup`, undefined
behaviour, modelled `none` (in the source order: the weekday string is
duplicated before the weekday parse, the start-time string only after it,
the end-time string after the start-time parse). -/
def parse_interval (s : List Char) : Option (Except ParseError BAInterval) :=
  match strtokList '-' s with
  | wdTok :: stTok :: enTok :: _ =>
    match trim wdTok with
    | none => none
    | some wstr =>
      match parseWeekdays wstr with
      | none => none
      | some (.error e) => some (.error e)
      | some (.ok wds) =>
        match trim stTok with
        | none => none
        | some ststr =>
          match parseTime ststr with
          | .error e => some (.error e)
          | .ok t1 =>
            match trim enTok with
            | none => none
            | some enstr =>
              match parseTime enstr with
              | .error e => some (.error e)
              | .ok t2 => some (.ok ⟨wds, t1, t2⟩)
  | _ => some (.error .MalformedInterval)

/-- `parse_roles` from `block_access.c`.  A `NULL` group yields no roles.
Otherwise the `roles` array is sized by the comma count and filled from
the `strtok(item, ",")` tokens, each passed through `trim` (so a
whitespace-only token stores `NULL`, modelled `none`); positions beyond
the tokens `strtok` returned (consecutive or trailing commas) remain
uninitialized, also modelled `none`.  This function has no error path. -/
def parse_roles : Option (List Char) → List (Option (List Char))
  | none => []
  | some s =>
    let nr := s.count ',' + 1
    let toks := (strtokList ',' s).map trim
    toks ++ List.replicate (nr - toks.length) none

/-- Run `parse_interval` over the `n` slots of the `item` array
(`parse_options` first loop); a `NULL` slot reaches
`pstrdup(NULL)` inside `parse_interval`, modelled `none`. -/
def parseIntervals : List (Option (List Char)) → Option (Except ParseError (List BAInterval))
  | [] => some (.ok [])
  | none :: _ => none
  | some s :: rest =>
    match parse_interval s with
    | none => none
    | some (.error e) => some (.error e)
    | some (.ok iv) =>
      match parseIntervals rest with
      | none => none
      | some (.error e) => some (.error e)
      | some (.ok ivs) => some (.ok (iv :: ivs))

/-- `parse_options` from `block_access.c`, for `n` groups: the interval
string is trimmed and split with plain `strtok(";")` (note: not
`strtok_all`), each token trimmed into the `palloc0`ed `item` array whose
remaining slots stay `NULL`; every slot is fed to `parse_interval`.  The
role string is trimmed and split with `strtok_all(";")`, each token
trimmed, remaining slots `NULL`; every slot is fed to `parse_roles`.
A whitespace-only interval configuration reaches `strtok(NULL, ";")`
with stale tokenizer state, modelled `none`. -/
def parse_options (it er : List Char) (n : Nat) : Option (Except ParseError (List BAIntervalRole)) :=
  match trim it with
  | none => none
  | some its =>
    let ivToks := (strtokList ';' its).map trim
    if n < ivToks.length then none
    else
      match parseIntervals (ivToks ++ List.replicate (n - ivToks.length) none) with
      | none => none
      | some (.error e) => some (.error e)
      | some (.ok ivs) =>
        let rToks :=
          match trim er with
          | none => []
          | some ers => (strtok_all ';' ers).map trim
        if n < rToks.length then none
        else
          let rlists := (rToks ++ List.replicate (n - rToks.length) none).map parse_roles
          some (.ok (List.zipWith
            (fun (iv : BAInterval) rs => BAIntervalRole.mk iv.wday iv.start_time iv.end_time rs)
            ivs rlists))

/-- The exclusion scan of `block_access_checks` (lines 507-516): walk the
`roles` array in order and `strcmp` each slot against the user name,
stopping at the first match.  Reaching a `NULL` or uninitialized slot
before a match applies `strcmp` to an invalid pointer — undefined
behaviour, modelled `none`. -/
def findRole (user : List Char) : List (Option (List Char)) → Option Bool
  | [] => some false
  | none :: _ => none
  | some r :: rest =>
    if r = user then some true else findRole user rest

/-- Start time of a rule in minutes since midnight (`s1`). -/
def startMinutes (r : BAIntervalRole) : Int :=
  r.start_time.hour * 60 + r.start_time.minute

/-- End time of a rule in minutes since midnight (`s2`). -/
def endMinutes (r : BAIntervalRole) : Int :=
  r.end_time.hour * 60 + r.end_time.minute

/-- The evaluation loop of `block_access_checks` (lines 471-531): scan the
rules in order; the first rule whose weekday list contains the current
weekday decides: if the current minute count `n1` is outside the closed
interval `[s1, s2]`, the user must appear in the rule's exclusion list or
the attempt is denied; otherwise the attempt is allowed; either way the
scan stops (`bailout`).  If no rule matches, the attempt is allowed. -/
def evalPolicy (user : List Char) (wd : Nat) (n1 : Int) : List BAIntervalRole → Option Verdict
  | [] => some .Allow
  | r :: rest =>
    if wd ∈ r.wday then
      if n1 < startMinutes r ∨ endMinutes r < n1 then
        match findRole user r.roles with
        | none => none
        | some true => some .Allow
        | some false => some .Deny
      else some .Allow
    else evalPolicy user wd n1 rest

/-- `block_access_checks` (lines 423-545), for a successful authentication
(`status == STATUS_OK`): with no `interval_time` configured nothing is
checked (allow).  Otherwise the numbers of `;`-separated groups of the
two raw configuration strings are counted (a `NULL` `exclude_roles` is
dereferenced by that count — undefined, `none`); a count mismatch is
`elog(ERROR, "number of intervals and exclude_roles elements do not
match")`, before any parsing or evaluation.  Otherwise the options are
parsed and the policy evaluated at the current weekday and time. -/
def blockAccessChecks (itime eroles : Option (List Char)) (user : List Char)
    (wd : Nat) (hourNow minNow : Nat) : Option (Except ParseError Verdict) :=
  match itime with
  | none => some (.ok .Allow)
  | some it =>
    match eroles with
    | none => none
    | some er =>
      let ni := it.count ';' + 1
      let nr := er.count ';' + 1
      if ni ≠ nr then some (.error .GroupCountMismatch)
      else
        match parse_options it er ni with
        | none => none
        | some (.error e) => some (.error e)
        | some (.ok pol) =>
          match evalPolicy user wd ((hourNow : Int) * 60 + (minNow : Int)) pol with
          | none => none
          | some v => some (.ok v)

/-! ### Properties of the splitters -/

theorem splitOnAll_ne_nil (d : Char) (s : List Char) : splitOnAll d s ≠ [] := by
  induction s with
  | nil => simp [splitOnAll]
  | cons c rest ih =>
    simp only [splitOnAll]
    by_cases hc : c = d
    · simp [hc]
    · have hcb : (c == d) = false := by simp [hc]
      simp only [hcb, Bool.false_eq_true, if_false]
      cases h : splitOnAll d rest with
      | nil => simp
      | cons g gs => simp

theorem dropTrailingEmpty_cons (a : List Char) (l : List (List Char)) (h : l ≠ []) :
    dropTrailingEmpty (a :: l) = a :: dropTrailingEmpty l := by
  obtain ⟨b, l', rfl⟩ : ∃ b l', l = b :: l' := by
    cases l with
    | nil => exact absurd rfl h
    | cons b l' => exact ⟨b, l', rfl⟩
  simp only [dropTrailingEmpty]
  by_cases hl : (b :: l').getLast? = some []
  · rw [if_pos, if_pos hl]
    · rfl
    · rw [List.getLast?_cons_cons]; exact hl
  · rw [if_neg, if_neg hl]
    rw [List.getLast?_cons_cons]; exact hl

theorem strtok_all_eq_dropTrailing (d : Char) (s : List Char) :
    strtok_all d s = dropTrailingEmpty (splitOnAll d s) := by
  induction s with
  | nil => simp [strtok_all, splitOnAll, dropTrailingEmpty]
  | cons c rest ih =>
    by_cases hc : c = d
    · subst hc
      simp only [strtok_all, splitOnAll, beq_self_eq_true, if_true]
      rw [ih, dropTrailingEmpty_cons _ _ (splitOnAll_ne_nil _ _)]
    · have hcb : (c == d) = false := by simp [hc]
      cases hsp : splitOnAll d rest with
      | nil => exact absurd hsp (splitOnAll_ne_nil d rest)
      | cons g gs =>
        have lhs : strtok_all d (c :: rest) =
            match dropTrailingEmpty (g :: gs) with
            | [] => [[c]]
            | t :: ts => (c :: t) :: ts := by
          simp only [strtok_all, hcb, Bool.false_eq_true, if_false, ih, hsp]
        have rhs : splitOnAll d (c :: rest) = (c :: g) :: gs := by
          simp only [splitOnAll, hcb, Bool.false_eq_true, if_false, hsp]
        rw [lhs, rhs]
        cases gs with
        | nil =>
          by_cases hg : g = []
          · subst hg
            simp [dropTrailingEmpty]
          · simp [dropTrailingEmpty, hg]
        | cons g2 gs2 =>
          rw [dropTrailingEmpty_cons g (g2 :: gs2) (by simp)]
          rw [dropTrailingEmpty_cons (c :: g) (g2 :: gs2) (by simp)]

theorem splitOnAll_length (d : Char) (s : List Char) :
    (splitOnAll d s).length = s.count d + 1 := by
  induction s with
  | nil => simp [splitOnAll]
  | cons c rest ih =>
    by_cases hc : c = d
    · subst hc
      simp [splitOnAll, List.count_cons, ih]
    · have hcb : (c == d) = false := by simp [hc]
      simp only [splitOnAll, hcb, Bool.false_eq_true, if_false]
      cases hsp : splitOnAll d rest with
      | nil => exact absurd hsp (splitOnAll_ne_nil d rest)
      | cons g gs =>
        rw [hsp] at ih
        simp [List.count_cons, hc, ← ih]

theorem mem_splitOnAll_not_delim (d : Char) (s : List Char) :
    ∀ t ∈ splitOnAll d s, d ∉ t := by
  induction s with
  | nil =>
    intro t ht
    simp only [splitOnAll, List.mem_singleton] at ht
    subst ht; simp
  | cons c rest ih =>
    intro t ht
    by_cases hc : c = d
    · subst hc
      simp only [splitOnAll, beq_self_eq_true, if_true] at ht
      rcases List.mem_cons.mp ht with h | h
      · subst h; simp
      · exact ih t h
    · have hcb : (c == d) = false := by simp [hc]
      simp only [splitOnAll, hcb, Bool.false_eq_true, if_false] at ht
      cases hsp : splitOnAll d rest with
      | nil => exact absurd hsp (splitOnAll_ne_nil d rest)
      | cons g gs =>
        rw [hsp] at ht
        rcases List.mem_cons.mp ht with h | h
        · subst h
          intro hmem
          rcases List.mem_cons.mp hmem with h1 | h1
          · exact hc h1.symm
          · exact ih g (by rw [hsp]; exact List.mem_cons_self _ _) h1
        · exact ih t (by rw [hsp]; exact List.mem_cons_of_mem _ h)

theorem splitOnAll_no_delim (d : Char) : ∀ (a : List Char), d ∉ a → splitOnAll d a = [a] := by
  intro a
  induction a with
  | nil => intro _; rfl
  | cons c a' ih =>
    intro ha
    have hc : c ≠ d := fun h => ha (by simp [h])
    have hcb : (c == d) = false := by simp [hc]
    have ha' : d ∉ a' := fun h => ha (List.mem_cons_of_mem _ h)
    simp only [splitOnAll, hcb, Bool.false_eq_true, if_false, ih ha']

theorem splitOnAll_append_delim (d : Char) (b : List Char) :
    ∀ (a : List Char), d ∉ a → splitOnAll d (a ++ d :: b) = a :: splitOnAll d b := by
  intro a
  induction a with
  | nil => intro _; simp [splitOnAll]
  | cons c a' ih =>
    intro ha
    have hc : c ≠ d := fun h => ha (by simp [h])
    have hcb : (c == d) = false := by simp [hc]
    have ha' : d ∉ a' := fun h => ha (List.mem_cons_of_mem _ h)
    rw [List.cons_append]
    simp only [splitOnAll, hcb, Bool.false_eq_true, if_false]
    rw [ih ha']

theorem strtokList_no_delim (d : Char) (a : List Char) (h0 : a ≠ []) (hd : d ∉ a) :
    strtokList d a = [a] := by
  simp [strtokList, splitOnAll_no_delim d a hd, List.filter, h0]

theorem strtokList_append_delim (d : Char) (a b : List Char) (h0 : a ≠ []) (hd : d ∉ a) :
    strtokList d (a ++ d :: b) = a :: strtokList d b := by
  simp [strtokList, splitOnAll_append_delim d b a hd, List.filter_cons, h0]

theorem mem_strtokList (d : Char) (s t : List Char) (h : t ∈ strtokList d s) :
    t ≠ [] ∧ d ∉ t := by
  simp only [strtokList, List.mem_filter] at h
  refine ⟨?_, mem_splitOnAll_not_delim d s t h.1⟩
  have := h.2
  simp only [Bool.not_eq_true'] at this
  exact fun he => by simp [he] at this

/-! ### Properties of atoi, the exclusion scan and the evaluation loop -/

theorem atoi_eq_zero_of_no_digit (s : List Char) (h : ∀ c ∈ s, c.isDigit = false) :
    atoi s = 0 := by
  unfold atoi
  cases hs : s.dropWhile isSpaceC with
  | nil => rfl
  | cons c rest =>
    have hsub : ∀ x ∈ c :: rest, x ∈ s := by
      intro x hx
      exact (List.dropWhile_sublist isSpaceC).subset (hs ▸ hx)
    have hrest : rest.takeWhile Char.isDigit = [] := by
      cases rest with
      | nil => rfl
      | cons c2 r2 =>
        have h2 : c2.isDigit = false := h c2 (hsub c2 (by simp))
        simp [List.takeWhile_cons, h2]
    have hcd : c.isDigit = false := h c (hsub c (by simp))
    by_cases h1 : c = '-'
    · simp [h1, hrest, digitsVal]
    · by_cases h2 : c = '+'
      · simp [h1, h2, hrest, digitsVal]
      · simp [h1, h2, List.takeWhile_cons, hcd, digitsVal]

theorem findRole_all_some (user : List Char) (roles : List (Option (List Char)))
    (h : ∀ o ∈ roles, o ≠ none) :
    findRole user roles = some (decide (some user ∈ roles)) := by
  induction roles with
  | nil => simp [findRole]
  | cons o rest ih =>
    cases o with
    | none => exact absurd rfl (h none (by simp))
    | some r =>
      by_cases hr : r = user
      · subst hr
        simp [findRole]
      · have hrest := ih (fun o ho => h o (List.mem_cons_of_mem _ ho))
        have hne : ¬ (some user = some r) := by
          intro he
          exact hr (Option.some.inj he).symm
        simp [findRole, hr, hrest, List.mem_cons, hne]

theorem findRole_hits_invalid_slot (user : List Char) (pre post : List (Option (List Char)))
    (hpre : ∀ t ∈ pre, ∀ r, t = some r → r ≠ user) :
    findRole user (pre ++ none :: post) = none := by
  induction pre with
  | nil => rfl
  | cons o pre' ih =>
    cases o with
    | none => rfl
    | some r =>
      have hr : r ≠ user := hpre (some r) (by simp) r rfl
      simp only [List.cons_append, findRole, if_neg hr]
      exact ih (fun t ht r2 he => hpre t (List.mem_cons_of_mem _ ht) r2 he)

theorem evalPolicy_append_no_match (pre rest : List BAIntervalRole) (user : List Char)
    (wd : Nat) (n1 : Int) (hpre : ∀ q ∈ pre, wd ∉ q.wday) :
    evalPolicy user wd n1 (pre ++ rest) = evalPolicy user wd n1 rest := by
  induction pre with
  | nil => rfl
  | cons q pre' ih =>
    have hq : wd ∉ q.wday := hpre q (by simp)
    simp only [List.cons_append, evalPolicy, if_neg hq]
    exact ih (fun q2 hq2 => hpre q2 (List.mem_cons_of_mem _ hq2))

theorem evalPolicy_first_match (pre post : List BAIntervalRole) (r : BAIntervalRole)
    (user : List Char) (wd : Nat) (n1 : Int)
    (hpre : ∀ q ∈ pre, wd ∉ q.wday) (hr : wd ∈ r.wday)
    (hroles : ∀ o ∈ r.roles, o ≠ none) :
    evalPolicy user wd n1 (pre ++ r :: post) =
      if startMinutes r ≤ n1 ∧ n1 ≤ endMinutes r then some Verdict.Allow
      else if some user ∈ r.roles then some Verdict.Allow else some Verdict.Deny := by
  rw [evalPolicy_append_no_match pre (r :: post) user wd n1 hpre]
  simp only [evalPolicy, if_pos hr, findRole_all_some user r.roles hroles]
  by_cases hin : startMinutes r ≤ n1 ∧ n1 ≤ endMinutes r
  · rw [if_neg (by omega), if_pos hin]
  · rw [if_pos (by omega), if_neg hin]
    by_cases hmem : some user ∈ r.roles
    · simp [hmem]
    · simp [hmem]

/-! ### The claims -/

/-- Claim C1: for every policy rule and every evaluation whose weekday matches
that rule first (no earlier rule lists the current weekday), with s1, s2, n1
the start, end and current times in minutes since midnight: if n1 lies in the
closed interval [s1, s2] the verdict is Allow; if n1 < s1 or n1 > s2 the
verdict is Allow exactly when the principal is an exact string match of some
entry of the rule's exclusion list, and Deny otherwise.  Stated for rules all
of whose exclusion slots hold valid strings (a NULL or uninitialized slot
makes the scan undefined; see the C8 theorem). -/
theorem first_match_window_verdict (pre post : List BAIntervalRole) (r : BAIntervalRole)
    (user : List Char) (wd : Nat) (n1 : Int)
    (hpre : ∀ q ∈ pre, wd ∉ q.wday) (hr : wd ∈ r.wday)
    (hroles : ∀ o ∈ r.roles, o ≠ none) :
    evalPolicy user wd n1 (pre ++ r :: post) =
      if startMinutes r ≤ n1 ∧ n1 ≤ endMinutes r then some Verdict.Allow
      else if some user ∈ r.roles then some Verdict.Allow else some Verdict.Deny :=
  evalPolicy_first_match pre post r user wd n1 hpre hr hroles

/-- Witness for the C1 theorem: Saturday 07:59 against `sat - 08:00 - 12:00`
excluding only carol denies bob. -/
theorem first_match_window_verdict_witness :
    evalPolicy "bob".toList 6 479
      [⟨[6], ⟨8, 0⟩, ⟨12, 0⟩, [some "carol".toList]⟩] = some Verdict.Deny :=
  (first_match_window_verdict [] [] ⟨[6], ⟨8, 0⟩, ⟨12, 0⟩, [some "carol".toList]⟩
    "bob".toList 6 479 (by simp) (by decide) (by decide)).trans (by decide)

/-- Claim C2: the first rule whose weekday list contains the current weekday
decides the verdict and the scan stops there: every rule after it — whatever
its weekdays, window or exclusions — is never consulted, so the evaluation
result does not depend on what follows the first matching rule. -/
theorem first_weekday_match_stops_scan (pre post1 post2 : List BAIntervalRole)
    (r : BAIntervalRole) (user : List Char) (wd : Nat) (n1 : Int) (hr : wd ∈ r.wday) :
    evalPolicy user wd n1 (pre ++ r :: post1) = evalPolicy user wd n1 (pre ++ r :: post2) := by
  induction pre with
  | nil => simp only [List.nil_append, evalPolicy, if_pos hr]
  | cons q pre' ih =>
    by_cases hq : wd ∈ q.wday
    · simp only [List.cons_append, evalPolicy, if_pos hq]
    · simp only [List.cons_append, evalPolicy, if_neg hq]
      exact ih

/-- Witness for the C2 theorem: two Monday rules, the first denying at 20:00,
the second allowing all day; the verdict ignores the second rule. -/
theorem first_weekday_match_stops_scan_witness :
    evalPolicy "u".toList 1 1200
        [⟨[1], ⟨8, 0⟩, ⟨18, 0⟩, []⟩, ⟨[1], ⟨0, 0⟩, ⟨23, 59⟩, []⟩] =
      evalPolicy "u".toList 1 1200 [⟨[1], ⟨8, 0⟩, ⟨18, 0⟩, []⟩] ∧
    evalPolicy "u".toList 1 1200 [⟨[1], ⟨8, 0⟩, ⟨18, 0⟩, []⟩] = some Verdict.Deny :=
  ⟨first_weekday_match_stops_scan [] [⟨[1], ⟨0, 0⟩, ⟨23, 59⟩, []⟩] []
      ⟨[1], ⟨8, 0⟩, ⟨18, 0⟩, []⟩ "u".toList 1 1200 (by decide),
   by decide⟩

/-- Claim C3: if the policy has zero rules, or no rule's weekday list contains
the current weekday, the verdict is Allow, whatever the time of day, the
principal name and the exclusion lists. -/
theorem no_weekday_match_allows (pol : List BAIntervalRole) (user : List Char)
    (wd : Nat) (n1 : Int) (h : ∀ q ∈ pol, wd ∉ q.wday) :
    evalPolicy user wd n1 pol = some Verdict.Allow := by
  have h2 := evalPolicy_append_no_match pol [] user wd n1 h
  rw [List.append_nil] at h2
  exact h2

/-- Witness for the C3 theorem: a Saturday-only policy evaluated on Tuesday
allows, and so does the empty policy. -/
theorem no_weekday_match_allows_witness :
    evalPolicy "alice".toList 2 100
        [⟨[6], ⟨8, 0⟩, ⟨12, 0⟩, [some "carol".toList]⟩] = some Verdict.Allow ∧
    evalPolicy "alice".toList 2 100 [] = some Verdict.Allow :=
  ⟨no_weekday_match_allows _ _ _ _ (by decide),
   no_weekday_match_allows [] _ _ _ (by simp)⟩

/-- Claim C6: a rule whose start time (in minutes) is strictly greater than
its end time has an empty inclusive window — no current time satisfies it —
so when that rule is the first weekday match the verdict is Allow exactly
when the principal is in the rule's exclusion list and Deny otherwise. -/
theorem inverted_window_never_inside (pre post : List BAIntervalRole) (r : BAIntervalRole)
    (user : List Char) (wd : Nat) (n1 : Int)
    (hpre : ∀ q ∈ pre, wd ∉ q.wday) (hr : wd ∈ r.wday)
    (hroles : ∀ o ∈ r.roles, o ≠ none)
    (hinv : endMinutes r < startMinutes r) :
    ¬(startMinutes r ≤ n1 ∧ n1 ≤ endMinutes r) ∧
    evalPolicy user wd n1 (pre ++ r :: post) =
      (if some user ∈ r.roles then some Verdict.Allow else some Verdict.Deny) := by
  constructor
  · omega
  · rw [evalPolicy_first_match pre post r user wd n1 hpre hr hroles, if_neg (by omega)]

/-- Witness for the C6 theorem: `mon - 18:00 - 08:00` at Monday 10:00 denies
bob (not excluded) — the inverted window is never satisfied. -/
theorem inverted_window_never_inside_witness :
    evalPolicy "bob".toList 1 600
      [⟨[1], ⟨18, 0⟩, ⟨8, 0⟩, [some "carol".toList]⟩] = some Verdict.Deny :=
  ((inverted_window_never_inside [] [] ⟨[1], ⟨18, 0⟩, ⟨8, 0⟩, [some "carol".toList]⟩
    "bob".toList 1 600 (by simp) (by decide) (by decide) (by decide)).2).trans (by decide)

/-- Claim C4: when the two configuration strings have different numbers of
`;`-separated groups, the check fails with the group-count-mismatch error
before any rule is parsed or evaluated, and no verdict is produced. -/
theorem group_count_mismatch_rejected (it er user : List Char) (wd hourNow minNow : Nat)
    (hne : (splitOnAll ';' it).length ≠ (splitOnAll ';' er).length) :
    blockAccessChecks (some it) (some er) user wd hourNow minNow =
      some (.error ParseError.GroupCountMismatch) := by
  have hc : it.count ';' + 1 ≠ er.count ';' + 1 := by
    rw [← splitOnAll_length, ← splitOnAll_length]
    exact hne
  simp only [blockAccessChecks, if_pos hc]

/-- Witness for the C4 theorem: one interval group against two role groups. -/
theorem group_count_mismatch_rejected_witness :
    blockAccessChecks (some "mon - 08:00 - 18:00".toList) (some "a;b".toList)
      "x".toList 1 9 0 = some (.error ParseError.GroupCountMismatch) :=
  group_count_mismatch_rejected "mon - 08:00 - 18:00".toList "a;b".toList
    "x".toList 1 9 0 (by decide)

/-- Claim C5 (amended): the role spec's top-level split (`strtok_all`)
returns every `;`-separated group in order — adjacent delimiters are not
collapsed — except that a trailing empty group is dropped; the interval
spec's top-level split (plain `strtok`) returns only the nonempty groups,
collapsing adjacent delimiters and dropping empty groups entirely. -/
theorem top_level_split_semantics (d : Char) (s : List Char) :
    strtok_all d s = dropTrailingEmpty (splitOnAll d s) ∧
    strtokList d s = (splitOnAll d s).filter (fun t => !t.isEmpty) ∧
    [] ∉ strtokList d s :=
  ⟨strtok_all_eq_dropTrailing d s, rfl, fun h => (mem_strtokList d s [] h).1 rfl⟩

/-- Counterexample to C5 as stated: the interval-spec split collapses the
adjacent delimiters of `a;;b` (two groups instead of three), and the
role-spec split drops the trailing empty group of `a;` (one group instead
of two); neither split returns every group. -/
theorem top_level_split_counterexample :
    strtokList ';' "a;;b".toList = ["a".toList, "b".toList] ∧
    strtokList ';' "a;;b".toList ≠ ["a".toList, [], "b".toList] ∧
    strtok_all ';' "a;".toList = ["a".toList] ∧
    strtok_all ';' "a;".toList ≠ ["a".toList, []] := by decide

/-- Claim C7 (amended): a time token is tokenized on `:` by `strtok`, which
skips empty fields, and the fields are read by `atoi`; a token with no field
at all fails MalformedTime; a first field reading outside 0-23 fails
HourOutOfRange; an in-range hour with no second field fails MalformedTime;
a second field reading outside 0-59 fails MinuteOutOfRange; otherwise the
token parses to the two readings.  (In particular a token with an empty hour
part such as `:30` has its minute digits read as the hour, so it fails
HourOutOfRange rather than MalformedTime.) -/
theorem time_token_error_taxonomy (s : List Char) :
    (strtokList ':' s = [] → parseTime s = .error ParseError.MalformedTime) ∧
    (∀ hTok rest, strtokList ':' s = hTok :: rest → (atoi hTok < 0 ∨ 23 < atoi hTok) →
      parseTime s = .error ParseError.HourOutOfRange) ∧
    (∀ hTok, strtokList ':' s = [hTok] → 0 ≤ atoi hTok → atoi hTok ≤ 23 →
      parseTime s = .error ParseError.MalformedTime) ∧
    (∀ hTok mTok rest, strtokList ':' s = hTok :: mTok :: rest →
      0 ≤ atoi hTok → atoi hTok ≤ 23 → (atoi mTok < 0 ∨ 59 < atoi mTok) →
      parseTime s = .error ParseError.MinuteOutOfRange) ∧
    (∀ hTok mTok rest, strtokList ':' s = hTok :: mTok :: rest →
      0 ≤ atoi hTok → atoi hTok ≤ 23 → 0 ≤ atoi mTok → atoi mTok ≤ 59 →
      parseTime s = .ok ⟨atoi hTok, atoi mTok⟩) := by
  refine ⟨?_, ?_, ?_, ?_, ?_⟩
  · intro h
    simp [parseTime, h]
  · intro hTok rest h hout
    simp only [parseTime, h]
    rw [if_pos hout]
  · intro hTok h h0 h23
    simp only [parseTime, h]
    rw [if_neg (by omega)]
  · intro hTok mTok rest h h0 h23 hmout
    simp only [parseTime, h]
    rw [if_neg (by omega), if_pos hmout]
  · intro hTok mTok rest h h0 h23 hm0 hm59
    simp only [parseTime, h]
    rw [if_neg (by omega), if_neg (by omega)]

/-- Witness for the C7 theorem, one concrete input per case. -/
theorem time_token_error_taxonomy_witness :
    parseTime ":".toList = .error ParseError.MalformedTime ∧
    parseTime "99:00".toList = .error ParseError.HourOutOfRange ∧
    parseTime "8".toList = .error ParseError.MalformedTime ∧
    parseTime "8:99".toList = .error ParseError.MinuteOutOfRange ∧
    parseTime "8:30".toList = .ok ⟨8, 30⟩ :=
  ⟨(time_token_error_taxonomy _).1 (by decide),
   (time_token_error_taxonomy _).2.1 "99".toList ["00".toList] (by decide) (by decide),
   (time_token_error_taxonomy _).2.2.1 "8".toList (by decide) (by decide) (by decide),
   (time_token_error_taxonomy _).2.2.2.1 "8".toList "99".toList [] (by decide)
     (by decide) (by decide) (by decide),
   ((time_token_error_taxonomy _).2.2.2.2 "8".toList "30".toList [] (by decide)
     (by decide) (by decide) (by decide) (by decide)).trans (by decide)⟩

/-- Counterexample to C7 as stated: the token `:30` is missing its hour part,
but parsing fails with HourOutOfRange (the `30` is read as the hour), not
with MalformedTime as the claim requires. -/
theorem missing_hour_not_malformed_time :
    parseTime ":30".toList = .error ParseError.HourOutOfRange ∧
    parseTime ":30".toList ≠ .error ParseError.MalformedTime := by decide

/-- Claim C8: for a role group with a whitespace-only token between commas
(`alice, ,bob`) the parser allocates one slot per comma-separated position
and stores the empty-value marker (`NULL`) at the empty position; with
consecutive or trailing commas (`alice,,bob`) the surplus slot is left
unset; and the evaluator's exclusion scan compares against every allocated
slot with no guard, so the scan is not total — reaching such a slot before
a match is undefined behaviour (`none`). -/
theorem exclusion_scan_not_total (user : List Char) (hu : user ≠ "alice".toList) :
    parse_roles (some "alice, ,bob".toList) =
      [some "alice".toList, none, some "bob".toList] ∧
    parse_roles (some "alice,,bob".toList) =
      [some "alice".toList, some "bob".toList, none] ∧
    findRole user (parse_roles (some "alice, ,bob".toList)) = none := by
  refine ⟨by decide, by decide, ?_⟩
  have e : parse_roles (some "alice, ,bob".toList) =
      [some "alice".toList, none, some "bob".toList] := by decide
  rw [e]
  simp only [findRole, if_neg (fun h : "alice".toList = user => hu h.symm)]

/-- Witness for the C8 theorem: scanning for carol dereferences the invalid
second slot. -/
theorem exclusion_scan_not_total_witness :
    findRole "carol".toList (parse_roles (some "alice, ,bob".toList)) = none :=
  (exclusion_scan_not_total "carol".toList (by decide)).2.2

/-- Claim C9 (amended): a time token whose hour and minute fields contain no
digit at all is read by `atoi` as 0, so the group parses without error to
00:00 (for example `ab:cd`); but `atoi` first skips whitespace and an
optional sign, so a field that merely begins with a non-digit (such as
`\x20 99`) is read as its numeric value and can still fail the range check,
rather than being read as 0 or its (empty) leading digit prefix. -/
theorem digitless_time_token_reads_zero (hTok mTok : List Char)
    (hh0 : hTok ≠ []) (hm0 : mTok ≠ []) (hhc : ':' ∉ hTok) (hmc : ':' ∉ mTok)
    (hhd : ∀ c ∈ hTok, c.isDigit = false) (hmd : ∀ c ∈ mTok, c.isDigit = false) :
    parseTime (hTok ++ ':' :: mTok) = .ok ⟨0, 0⟩ := by
  have hsplit : strtokList ':' (hTok ++ ':' :: mTok) = [hTok, mTok] := by
    rw [strtokList_append_delim ':' hTok mTok hh0 hhc,
        strtokList_no_delim ':' mTok hm0 hmc]
  have hha : atoi hTok = 0 := atoi_eq_zero_of_no_digit hTok hhd
  have hma : atoi mTok = 0 := atoi_eq_zero_of_no_digit mTok hmd
  simp [parseTime, hsplit, hha, hma]

/-- Witness for the C9 theorem: `ab:cd` parses as 00:00. -/
theorem digitless_time_token_reads_zero_witness :
    parseTime "ab:cd".toList = .ok ⟨0, 0⟩ :=
  (digitless_time_token_reads_zero "ab".toList "cd".toList (by decide) (by decide)
    (by decide) (by decide) (by decide) (by decide)).trans (by decide)

/-- Counterexample to C9 as stated: in the group `mon - 08:00 - 12: 99` the
minute token begins with a non-digit (a space), yet parsing does not succeed
with the token read as 0: `atoi` skips the space, reads 99 and the group is
rejected with MinuteOutOfRange. -/
theorem whitespace_prefixed_minute_errors :
    parse_interval "mon - 08:00 - 12: 99".toList =
      some (.error ParseError.MinuteOutOfRange) := by decide

/-- Claim C10: an interval group splitting on `-` into more than three parts
parses using only the first three parts (weekday list, start time, end
time); everything after the third part is silently ignored, so the group
parses exactly as the truncation to its first three parts does. -/
theorem extra_dash_parts_ignored (s wdTok stTok enTok : List Char)
    (rest : List (List Char)) (h : strtokList '-' s = wdTok :: stTok :: enTok :: rest) :
    parse_interval s = parse_interval (wdTok ++ '-' :: (stTok ++ '-' :: enTok)) := by
  have h1 := mem_strtokList '-' s wdTok (by rw [h]; simp)
  have h2 := mem_strtokList '-' s stTok (by rw [h]; simp)
  have h3 := mem_strtokList '-' s enTok (by rw [h]; simp)
  have hsplit : strtokList '-' (wdTok ++ '-' :: (stTok ++ '-' :: enTok)) =
      [wdTok, stTok, enTok] := by
    rw [strtokList_append_delim '-' wdTok _ h1.1 h1.2,
        strtokList_append_delim '-' stTok _ h2.1 h2.2,
        strtokList_no_delim '-' enTok h3.1 h3.2]
  simp only [parse_interval, h, hsplit]

/-- Witness for the C10 theorem: `mon - 08:00 - 18:00 - 20:00` parses the
same as `mon - 08:00 - 18:00`, successfully, ignoring the fourth part. -/
theorem extra_dash_parts_ignored_witness :
    parse_interval "mon - 08:00 - 18:00 - 20:00".toList =
      parse_interval "mon - 08:00 - 18:00".toList ∧
    parse_interval "mon - 08:00 - 18:00 - 20:00".toList =
      some (.ok ⟨[1], ⟨8, 0⟩, ⟨18, 0⟩⟩) :=
  ⟨(extra_dash_parts_ignored "mon - 08:00 - 18:00 - 20:00".toList
      "mon ".toList " 08:00 ".toList " 18:00 ".toList [" 20:00".toList]
      (by decide)).trans (by decide),
   by decide⟩

end BlockAccess
